import Mathlib

/-!
Shallow embedding of the layered-filesystem view engine of the `lix`
container-image inspection tool: tar-entry scanning and path
normalization, single-layer extraction (`ls`), single-file reads (`cat`),
cross-image diff (`compare`), and the pattern filter used by `ls`.

Layers are modelled as lists of tar headers.  Lean `String`s stand for Go
strings; the paths and patterns the program handles are ASCII, where the
byte-wise and character-wise views of a string agree.  All string
primitives are defined structurally over `String.data` so that concrete
runs reduce inside the kernel.
-/

namespace Lix

/-- Character equality as a Bool, via code points. -/
def chEq (a b : Char) : Bool := a.toNat == b.toNat

/-- List-of-characters prefix test (Go `strings.HasPrefix p s` is
`goPre p.data s.data`). -/
def goPre : List Char → List Char → Bool
  | [], _ => true
  | _ :: _, [] => false
  | a :: as, b :: bs => chEq a b && goPre as bs

/-- Go `strings.HasPrefix s p`. -/
def strPre (p s : String) : Bool := goPre p.data s.data

/-- Go `strings.TrimPrefix s p`: drop `p` from the front of `s` when it
is a prefix, otherwise return `s` unchanged.  It removes the prefix at
most once. -/
def trimPfx (s p : String) : String :=
  if strPre p s then ⟨s.data.drop p.data.length⟩ else s

/-- Substring test over char lists (Go `strings.Contains s sub` is
`goInfix sub.data s.data`). -/
def goInfix : List Char → List Char → Bool
  | [], _ => true
  | _ :: _, [] => false
  | l, b :: bs => goPre l (b :: bs) || goInfix l bs

/-- Go `strings.Contains s sub`. -/
def containsSub (s sub : String) : Bool := goInfix sub.data s.data

/-- Go `filepath.Base`: last element of the path after trailing slashes
are removed; `"."` for the empty string, `"/"` when the name is all
slashes. -/
def filepathBase (s : String) : String :=
  if s.data = [] then "."
  else
    let s1 := (s.data.reverse.dropWhile (fun c => chEq c '/')).reverse
    if s1 = [] then "/"
    else ⟨(s1.reverse.takeWhile (fun c => !(chEq c '/'))).reverse⟩

/-- The path normalization every scan site applies to a raw archive name
or query path: `"/" + strings.TrimPrefix(name, "/")`. -/
def normalizePath (name : String) : String :=
  "/" ++ trimPfx name "/"

/-- Whiteout test used by the `ls` extractor and by `cat`:
`strings.HasPrefix(filepath.Base(name), ".wh.")`. -/
def isWhBase (name : String) : Bool :=
  strPre ".wh." (filepathBase name)

/-- Split a character list at `'/'` separators, like Go
`strings.Split(s, "/")`: the empty string yields one empty segment. -/
def splitSlash : List Char → List (List Char)
  | [] => [[]]
  | c :: cs =>
    if chEq c '/' then [] :: splitSlash cs
    else
      match splitSlash cs with
      | [] => [[c]]
      | seg :: rest => (c :: seg) :: rest

/-- Single-segment glob match, modelled from the external
`doublestar.Match` library the program delegates to: `*` matches any run
of characters within a segment (including the empty run), `?` matches
one character, anything else matches literally.  Character classes and
brace alternation of the library are not modelled; no pattern the
program builds or that these theorems evaluate uses them.  Fuel-based so
that applications reduce in the kernel; fuel bounded by
`pattern.length + name.length` always suffices. -/
def segMatchF : Nat → List Char → List Char → Bool
  | 0, _, _ => false
  | _ + 1, [], [] => true
  | _ + 1, [], _ :: _ => false
  | fuel + 1, p :: ps, [] => if chEq p '*' then segMatchF fuel ps [] else false
  | fuel + 1, p :: ps, c :: cs =>
    if chEq p '*' then segMatchF fuel ps (c :: cs) || segMatchF fuel (p :: ps) cs
    else if chEq p '?' then segMatchF fuel ps cs
    else chEq p c && segMatchF fuel ps cs

/-- Segment-list glob match, modelled from `doublestar.Match`: a pattern
segment consisting of exactly `**` matches any number of name segments,
including none; other pattern segments must match one name segment. -/
def globSegsF : Nat → List (List Char) → List (List Char) → Bool
  | 0, _, _ => false
  | _ + 1, [], [] => true
  | _ + 1, [], _ :: _ => false
  | fuel + 1, p :: ps, ns =>
    if p = ['*', '*'] then
      globSegsF fuel ps ns ||
        (match ns with
         | [] => false
         | _ :: ns' => globSegsF fuel (p :: ps) ns')
    else
      match ns with
      | [] => false
      | n :: ns' => segMatchF (p.length + n.length + 1) p n && globSegsF fuel ps ns'

/-- Model of `doublestar.Match(pattern, name)`: both strings are split on
`/` and matched segment-wise. -/
def doublestarMatch (pattern name : String) : Bool :=
  globSegsF (pattern.data.length + name.data.length + 1)
    (splitSlash pattern.data) (splitSlash name.data)

/-- Byte-wise (here: code-point-wise) `≤` on character lists, the order
Go's `sort.Strings` sorts by; the program only handles ASCII paths,
where byte order and code-point order coincide. -/
def strLeL : List Char → List Char → Bool
  | [], _ => true
  | _ :: _, [] => false
  | a :: as, b :: bs =>
    if a.toNat < b.toNat then true
    else if b.toNat < a.toNat then false
    else strLeL as bs

/-- The string order used by `sort.Strings`, as a relation. -/
def GoLe (a b : String) : Prop := strLeL a.data b.data = true

instance : DecidableRel GoLe := fun a b =>
  inferInstanceAs (Decidable (strLeL a.data b.data = true))

theorem strLeL_total : ∀ as bs, strLeL as bs = true ∨ strLeL bs as = true := by
  intro as
  induction as with
  | nil => intro bs; left; rfl
  | cons a as ih =>
    intro bs
    cases bs with
    | nil => right; rfl
    | cons b bs =>
      rcases Nat.lt_trichotomy a.toNat b.toNat with h | h | h
      · left; simp [strLeL, h]
      · have hba : ¬ b.toNat < a.toNat := by omega
        have hab : ¬ a.toNat < b.toNat := by omega
        rcases ih bs with h2 | h2
        · left; simp [strLeL, hab, hba, h2]
        · right; simp [strLeL, hab, hba, h2]
      · right; simp [strLeL, h]

theorem strLeL_trans :
    ∀ as bs cs, strLeL as bs = true → strLeL bs cs = true →
      strLeL as cs = true := by
  intro as
  induction as with
  | nil => intro bs cs _ _; rfl
  | cons a as ih =>
    intro bs cs hab hbc
    cases bs with
    | nil => simp [strLeL] at hab
    | cons b bs =>
      cases cs with
      | nil => simp [strLeL] at hbc
      | cons c cs =>
        simp only [strLeL] at hab hbc ⊢
        split_ifs at hab hbc ⊢ <;>
          first
          | rfl
          | omega
          | exact ih bs cs hab hbc

instance : IsTotal String GoLe :=
  ⟨fun a b => strLeL_total a.data b.data⟩

instance : IsTrans String GoLe :=
  ⟨fun a b c hab hbc => strLeL_trans a.data b.data c.data hab hbc⟩

/-- Go `sort.Strings`, modelled as insertion sort by the byte-wise
order. -/
def sortStrings (l : List String) : List String :=
  List.insertionSort GoLe l

/-- Tar entry type flags the program inspects (`archive/tar`'s
`TypeReg`, `TypeDir`, `TypeSymlink`, `TypeBlock`, `TypeChar`,
`TypeFifo`); every other flag byte is collapsed into `other`, which the
program treats uniformly. -/
inductive TarType where
  | reg
  | dir
  | symlink
  | block
  | char
  | fifo
  | other
deriving DecidableEq, Repr

/-- The byte value of a type flag as `archive/tar` defines it, printed
by `cat`'s "not a regular file" error through the `%c` verb. -/
def tarTypeByte : TarType → String
  | .reg => "0"
  | .dir => "5"
  | .symlink => "2"
  | .block => "4"
  | .char => "3"
  | .fifo => "6"
  | .other => "?"

/-- One tar header together with its payload bytes, as the tar reader
presents it: `name` is the raw archive name, `mode` the permission bits,
`size` the payload length, `content` the payload (only the file-read
path looks at it). -/
structure TarEntry where
  name : String
  typeflag : TarType
  mode : Nat := 0
  size : Int := 0
  content : String := ""
deriving DecidableEq, Repr

/-- The `{mode-string, size, path}` record `ls` produces per entry. -/
structure FileInfo where
  mode : String
  size : Int
  path : String
deriving DecidableEq, Repr

/-- `formatPermission`: one `rwx` cell from a 3-bit permission value. -/
def formatPermission (perm : Nat) : String :=
  (if perm &&& 4 ≠ 0 then "r" else "-") ++
    (if perm &&& 2 ≠ 0 then "w" else "-") ++
    (if perm &&& 1 ≠ 0 then "x" else "-")

/-- `formatFileMode`: the ls-style mode string, a type character
followed by three permission cells. -/
def formatFileMode (typeflag : TarType) (mode : Nat) : String :=
  (match typeflag with
   | .dir => "d"
   | .symlink => "l"
   | .block => "b"
   | .char => "c"
   | .fifo => "p"
   | _ => "-") ++
    formatPermission ((mode >>> 6) &&& 7) ++
    formatPermission ((mode >>> 3) &&& 7) ++
    formatPermission (mode &&& 7)

/-- The `FileInfo` record `extractFilesFromLayer` appends for one
non-whiteout tar header. -/
def toFileInfo (h : TarEntry) : FileInfo :=
  ⟨formatFileMode h.typeflag h.mode, h.size, normalizePath h.name⟩

/-- `extractFilesFromLayer` (ls.go): walk one layer's tar stream in
order, skip entries whose base name carries the `.wh.` prefix, and
append a `FileInfo` for every other entry. -/
def extractFilesFromLayer (layer : List TarEntry) : List FileInfo :=
  layer.foldl
    (fun files h =>
      if isWhBase h.name then files else files ++ [toFileInfo h])
    []

/-- The per-file match decision of `filterFiles` (ls.go): substring
match for wildcard-free patterns; otherwise doublestar matching, with a
`**/` prefix for slash-free patterns, and for slash-containing patterns
a try against the slash-stripped path plus — only when the pattern
itself starts with `/` — a second try against the absolute path. -/
def patMatches (pattern path : String) : Bool :=
  if pattern.data.any (fun c => chEq c '*' || chEq c '?' || chEq c '[') then
    let pathForMatch := trimPfx path "/"
    if !(pattern.data.any (fun c => chEq c '/')) then
      doublestarMatch ("**/" ++ pattern) pathForMatch
    else
      doublestarMatch pattern pathForMatch ||
        (strPre "/" pattern && doublestarMatch pattern path)
  else
    containsSub path pattern

/-- `filterFiles` (ls.go): keep the files whose path matches the
pattern, preserving order. -/
def filterFiles (files : List FileInfo) (pattern : String) : List FileInfo :=
  files.foldl
    (fun filtered f =>
      if patMatches pattern f.path then filtered ++ [f] else filtered)
    []

/-- The layer-selection step of `RunLs` (ls.go): a requested layer
number above the layer count is rejected; any requested value `≤ 0`
(the flag default is `-1`) falls back to the top layer's index.  The
result is the 0-based index into the layer list, as an `Int` because
the fallback produces `-1` when the image has no layers (Go then panics
on the slice access, modelled separately in `runLs`). -/
def lsLayerIndex (optLayer : Int) (n : Nat) : Except String Int :=
  if optLayer > 0 then
    if optLayer > (n : Int) then
      Except.error ("layer " ++ toString optLayer ++
        " does not exist (image has " ++ toString n ++ " layers)")
    else Except.ok (optLayer - 1)
  else Except.ok ((n : Int) - 1)

/-- `RunLs` (ls.go) after the image fetch: select a layer, extract its
files, and filter them when a pattern was given.  The `.error "panic"`
branch models Go's out-of-range slice panic, reachable only when the
image has no layers. -/
def runLs (layers : List (List TarEntry)) (optLayer : Int)
    (filterPat : String) : Except String (List FileInfo) :=
  match lsLayerIndex optLayer layers.length with
  | Except.error e => Except.error e
  | Except.ok idx =>
    match layers.get? idx.toNat with
    | none => Except.error "panic: index out of range"
    | some layer =>
      let files := extractFilesFromLayer layer
      Except.ok (if filterPat ≠ "" then filterFiles files filterPat else files)

/-- The "not a regular file" error text of `extractFileFromLayer`
(cat.go). -/
def catErrNotReg (p : String) (t : TarType) : String :=
  p ++ " is not a regular file (type: " ++ tarTypeByte t ++ ")"

/-- The scan loop of `extractFileFromLayer` (cat.go), already holding
the normalized target: the first entry whose normalized tar path equals
the target decides the outcome — not-found when its base name carries
the whiteout prefix, an error when it is not a regular file, its
content otherwise; entries at other paths are skipped. -/
def scanEntries (normalizedTarget : String) :
    List TarEntry → Except String (Option String)
  | [] => Except.ok none
  | h :: rest =>
    if normalizePath h.name = normalizedTarget then
      if isWhBase h.name then Except.ok none
      else if h.typeflag ≠ TarType.reg then
        Except.error (catErrNotReg normalizedTarget h.typeflag)
      else Except.ok (some h.content)
    else scanEntries normalizedTarget rest

/-- `extractFileFromLayer` (cat.go): `Except.ok (some c)` is
`(c, true, nil)`, `Except.ok none` is `("", false, nil)` and
`Except.error e` is a non-nil error. -/
def extractFileFromLayer (layer : List TarEntry) (targetPath : String) :
    Except String (Option String) :=
  scanEntries (normalizePath targetPath) layer

/-- The search loop of `RunCat` (cat.go) over a list of 0-based layer
indices: the first layer in which the file is found supplies the
content; a layer error aborts; exhaustion yields the "file not found"
error. -/
def catSearch (layers : List (List TarEntry)) (filePath : String) :
    List Nat → Except String String
  | [] => Except.error ("file not found: " ++ filePath)
  | i :: rest =>
    match layers.get? i with
    | none => Except.error "panic: index out of range"
    | some layer =>
      match extractFileFromLayer layer filePath with
      | Except.error e =>
        Except.error ("failed to read layer " ++ toString (i + 1) ++ ": " ++ e)
      | Except.ok (some content) => Except.ok content
      | Except.ok none => catSearch layers filePath rest

/-- `RunCat` (cat.go) after the image fetch: force the query path
absolute, then either search exactly the requested layer (rejecting a
number above the layer count) or search all layers top-down. -/
def runCat (layers : List (List TarEntry)) (optLayer : Int)
    (filePath0 : String) : Except String String :=
  let filePath := if strPre "/" filePath0 then filePath0 else "/" ++ filePath0
  if optLayer > 0 then
    if optLayer > (layers.length : Int) then
      Except.error ("layer " ++ toString optLayer ++
        " does not exist (image has " ++ toString layers.length ++ " layers)")
    else catSearch layers filePath [optLayer.toNat - 1]
  else catSearch layers filePath (List.range layers.length).reverse

/-- One image layer as `compare` consumes it: a content digest plus the
tar entries of its uncompressed archive. -/
structure Layer where
  digest : String
  entries : List TarEntry
deriving DecidableEq, Repr

/-- Insertion into the model of Go's `map[string]bool` path set: the
map is represented as a duplicate-free list; a key already present is
left in place. -/
def setInsert (l : List String) (x : String) : List String :=
  if x ∈ l then l else l ++ [x]

/-- `delete(files, x)` on the path-set model. -/
def setErase (l : List String) (x : String) : List String :=
  l.filter (fun y => decide (y ≠ x))

/-- `extractFileListFromLayers` (compare.go): walk the layers bottom to
top, skipping any layer whose digest occurs in the other image's digest
set; within a kept layer, skip directory entries, apply
`delete(files, path)` for entries whose whole raw name starts with
`.wh.` (note: the raw-name prefix, not the base name, and the marker's
own normalized path, not the sibling path with the marker stripped),
and record the normalized path of every regular-file entry. -/
def extractFileListFromLayers (layers : List Layer)
    (otherLayerDigests : List String) : List String :=
  layers.foldl
    (fun files layer =>
      if layer.digest ∈ otherLayerDigests then files
      else
        layer.entries.foldl
          (fun files h =>
            let path := normalizePath h.name
            if h.typeflag = TarType.dir then files
            else if strPre ".wh." h.name then setErase files path
            else if h.typeflag = TarType.reg then setInsert files path
            else files)
          files)
    []

/-- `compareFiles` (compare.go): Go ranges over the two maps appending
to `added`/`removed`/`modified` and then sorts each slice, so the
denotation is independent of map iteration order: each output is the
sorted classification of the corresponding key set. -/
def compareFiles (files1 files2 : List String) :
    List String × List String × List String :=
  (sortStrings (files2.filter (fun p => decide (p ∉ files1))),
   sortStrings (files1.filter (fun p => decide (p ∉ files2))),
   sortStrings (files2.filter (fun p => decide (p ∈ files1))))

/-- What `compare` consumes from one fetched image: the repository name
of its parsed reference, the whole-image digest, and the layer list. -/
structure ImageData where
  repo : String
  digest : String
  layers : List Layer
deriving DecidableEq, Repr

/-- The outcome `RunCompare` reports: either the identical-images
message, or the three classified path lists. -/
inductive CompareOutcome where
  | identical
  | changes (added removed modified : List String)
deriving DecidableEq, Repr

/-- Added paths reported by an outcome (none for `identical`). -/
def CompareOutcome.addedPaths : CompareOutcome → List String
  | .identical => []
  | .changes a _ _ => a

/-- Removed paths reported by an outcome (none for `identical`). -/
def CompareOutcome.removedPaths : CompareOutcome → List String
  | .identical => []
  | .changes _ r _ => r

/-- Modified paths reported by an outcome (none for `identical`). -/
def CompareOutcome.modifiedPaths : CompareOutcome → List String
  | .identical => []
  | .changes _ _ m => m

/-- Layer I/O actions `RunCompare` can perform, recorded in program
order: enumerating an image's layer list, reading one layer's digest,
and opening one layer's uncompressed stream. -/
inductive LayerIOEvent where
  | enumerated (image : Nat)
  | digestRead (image : Nat) (digest : String)
  | opened (image : Nat) (digest : String)
deriving DecidableEq, Repr

/-- `RunCompare` (compare.go) after the two image fetches, with its
layer I/O made explicit: mismatched repositories are rejected first;
equal whole-image digests short-circuit to the identical outcome before
any layer is enumerated, read or opened; otherwise both layer lists are
enumerated, every layer digest is read, each image's unique layers are
opened, and the two path sets are classified. -/
def runCompare (img1 img2 : ImageData) :
    Except String (CompareOutcome × List LayerIOEvent) :=
  if img1.repo ≠ img2.repo then
    Except.error ("images must be from the same repository: " ++
      img1.repo ++ " != " ++ img2.repo)
  else if img1.digest = img2.digest then
    Except.ok (CompareOutcome.identical, [])
  else
    let digests1 := img1.layers.map Layer.digest
    let digests2 := img2.layers.map Layer.digest
    let files1 := extractFileListFromLayers img1.layers digests2
    let files2 := extractFileListFromLayers img2.layers digests1
    let res := compareFiles files1 files2
    let events :=
      [LayerIOEvent.enumerated 1, LayerIOEvent.enumerated 2] ++
        digests1.map (LayerIOEvent.digestRead 1) ++
        digests2.map (LayerIOEvent.digestRead 2) ++
        (img1.layers.filter (fun l => decide (l.digest ∉ digests2))).map
          (fun l => LayerIOEvent.opened 1 l.digest) ++
        (img2.layers.filter (fun l => decide (l.digest ∉ digests1))).map
          (fun l => LayerIOEvent.opened 2 l.digest)
    Except.ok (CompareOutcome.changes res.1 res.2.1 res.2.2, events)

/-- Join character-list segments with `'/'`, inverse of `splitSlash`. -/
def joinSlash : List (List Char) → List Char
  | [] => []
  | [s] => s
  | s :: rest => s ++ '/' :: joinSlash rest

/-- The sibling real path a whiteout marker denotes per the standard
union-filesystem convention: the marker's path with the `.wh.` prefix
stripped from its final segment. -/
def whRealPath (path : String) : String :=
  let segs := splitSlash path.data
  match segs.getLast? with
  | none => path
  | some last => ⟨joinSlash (segs.dropLast ++ [last.drop 4])⟩

/-- Follows the spec's overlay-resolution description: fold the layers
from lowest index to highest into one path set; an entry whose base
name carries the deletion-marker prefix removes the sibling real path
(its own synthetic path is not inserted); every other entry
inserts/overwrites at its normalized path.  Stated only as the
comparison point for the merged-view claim about the default `ls`
listing. -/
def specOverlayPaths (layers : List (List TarEntry)) : List String :=
  layers.foldl
    (fun snap layer =>
      layer.foldl
        (fun snap h =>
          if isWhBase h.name then
            setErase snap (whRealPath (normalizePath h.name))
          else setInsert snap (normalizePath h.name))
        snap)
    []

/-- Whether a string starts with exactly one slash: a canonical
absolute form. -/
def hasOneLeadingSlash (s : String) : Bool :=
  match s.data with
  | [] => false
  | c :: rest =>
    chEq c '/' &&
      (match rest with
       | [] => true
       | c2 :: _ => !(chEq c2 '/'))

/-! Helper lemmas about the embedded primitives. -/

theorem chEq_refl (a : Char) : chEq a a = true := by
  simp [chEq]

theorem chEq_comm (a b : Char) : chEq a b = chEq b a := by
  by_cases h : a.toNat = b.toNat
  · simp [chEq, h]
  · have h2 : ¬ b.toNat = a.toNat := fun h2 => h h2.symm
    simp [chEq, h, h2]

theorem goPre_append_self (l rest : List Char) :
    goPre l (l ++ rest) = true := by
  induction l with
  | nil => rfl
  | cons a as ih => simp [goPre, chEq_refl, ih]

theorem goInfix_nil (l : List Char) : goInfix [] l = true := by
  cases l <;> rfl

theorem goInfix_of_middle (mid pre post : List Char) :
    goInfix mid (pre ++ (mid ++ post)) = true := by
  cases mid with
  | nil => exact goInfix_nil _
  | cons m ms =>
    induction pre with
    | nil =>
      have h := goPre_append_self (m :: ms) post
      simp only [List.cons_append] at h
      simp [goInfix, h]
    | cons p ps ih =>
      simp only [List.cons_append, List.nil_append] at ih ⊢
      simp [goInfix, ih]

theorem strData_append (a b : String) : (a ++ b).data = a.data ++ b.data := rfl

theorem containsSub_of_middle (pre mid post : String)
    (h : post.data = mid.data ++ (post.data.drop mid.data.length)) :
    containsSub (pre ++ post) mid = true := by
  unfold containsSub
  rw [strData_append, h, goInfix_of_middle]

/-- Accumulator shape of the Go loops that `continue` past entries
matching `Q` and append `f` of the rest. -/
theorem foldl_skip_eq_filterMap {α β : Type} (Q : α → Bool) (f : α → β) :
    ∀ (l : List α) (acc : List β),
      l.foldl (fun r a => if Q a then r else r ++ [f a]) acc
        = acc ++ (l.filter (fun a => !(Q a))).map f := by
  intro l
  induction l with
  | nil => intro acc; simp
  | cons a l ih =>
    intro acc
    rcases Bool.eq_false_or_eq_true (Q a) with h | h <;> simp [h, ih]

/-- Accumulator shape of the Go loops that append `f` of entries
matching `P` and `continue` past the rest. -/
theorem foldl_keep_eq_filterMap {α β : Type} (P : α → Bool) (f : α → β) :
    ∀ (l : List α) (acc : List β),
      l.foldl (fun r a => if P a then r ++ [f a] else r) acc
        = acc ++ (l.filter P).map f := by
  intro l
  induction l with
  | nil => intro acc; simp
  | cons a l ih =>
    intro acc
    rcases Bool.eq_false_or_eq_true (P a) with h | h <;> simp [h, ih]

theorem mem_sortStrings {p : String} {l : List String} :
    p ∈ sortStrings l ↔ p ∈ l :=
  (List.perm_insertionSort GoLe l).mem_iff

theorem sorted_sortStrings (l : List String) :
    List.Sorted GoLe (sortStrings l) :=
  List.sorted_insertionSort GoLe l

theorem extractFilesFromLayer_eq (layer : List TarEntry) :
    extractFilesFromLayer layer
      = (layer.filter (fun h => !(isWhBase h.name))).map toFileInfo := by
  unfold extractFilesFromLayer
  simpa using foldl_skip_eq_filterMap (fun h => isWhBase h.name) toFileInfo layer []

theorem runLs_get (layers : List (List TarEntry)) (L : Int) (i : Nat)
    (layer : List TarEntry)
    (hidx : lsLayerIndex L layers.length = Except.ok (i : Int))
    (hget : layers.get? i = some layer) :
    runLs layers L "" = Except.ok (extractFilesFromLayer layer) := by
  unfold runLs
  rw [hidx]
  rw [List.get?_eq_getElem?] at hget
  simp [hget]

theorem runLs_default_top (L : Int) (hL : L ≤ 0)
    (pre : List (List TarEntry)) (layer : List TarEntry) :
    runLs (pre ++ [layer]) L "" = Except.ok (extractFilesFromLayer layer) := by
  refine runLs_get (pre ++ [layer]) L pre.length layer ?_ ?_
  · unfold lsLayerIndex
    rw [if_neg (by omega)]
    have hlen : ((pre ++ [layer]).length : Int) = (pre.length : Int) + 1 := by
      simp
    rw [hlen]
    congr 1
    omega
  · rw [List.get?_append_right (le_refl _)]
    simp

theorem runLs_select (pre post : List (List TarEntry)) (layer : List TarEntry) :
    runLs (pre ++ layer :: post) ((pre.length : Int) + 1) ""
      = Except.ok (extractFilesFromLayer layer) := by
  refine runLs_get _ _ pre.length layer ?_ ?_
  · unfold lsLayerIndex
    rw [if_pos (by omega),
      if_neg (by simp only [List.length_append, List.length_cons]; push_cast; omega)]
    congr 1
    omega
  · rw [List.get?_append_right (le_refl _)]
    simp

theorem containsSub_catErr (p : String) (t : TarType) :
    containsSub (catErrNotReg p t) (tarTypeByte t) = true := by
  unfold containsSub catErrNotReg
  have hd : (p ++ " is not a regular file (type: " ++ tarTypeByte t ++ ")").data
      = (p.data ++ (" is not a regular file (type: " : String).data)
          ++ ((tarTypeByte t).data ++ (")" : String).data) := by
    simp [strData_append, List.append_assoc]
  rw [hd]
  exact goInfix_of_middle _ _ _

theorem containsSub_layerErr (L : Int) (n : Nat) :
    containsSub ("layer " ++ toString L ++ " does not exist (image has "
        ++ toString n ++ " layers)") "does not exist" = true := by
  unfold containsSub
  have hsplit : (" does not exist (image has " : String).data
      = [' '] ++ ("does not exist" : String).data
          ++ (" (image has " : String).data := by decide
  have hd : ("layer " ++ toString L ++ " does not exist (image has "
        ++ toString n ++ " layers)").data
      = (("layer " : String).data ++ ((toString L).data ++ [' ']))
          ++ (("does not exist" : String).data
            ++ ((" (image has " : String).data
              ++ ((toString n).data ++ (" layers)" : String).data))) := by
    simp [strData_append, hsplit, List.append_assoc]
  rw [hd]
  exact goInfix_of_middle _ _ _

/-! The claims. -/

/-- C1: the claim says a tar entry whose base name carries the `.wh.`
deletion-marker prefix removes the sibling real path (prefix stripped)
from the accumulated diff path set, and is not itself inserted.  The
code evaluated at the failing input shows otherwise: a `.wh.foo` marker
in the upper unique layer leaves `/foo` (written by the lower unique
layer) in the set, because `extractFileListFromLayers` tests the `.wh.`
prefix against the whole raw name and deletes the marker's own
normalized path instead of the stripped sibling path; and a marker in a
subdirectory is not recognized at all — its own synthetic path is
inserted as a regular file. -/
theorem c1_whiteout_marker_not_applied :
    extractFileListFromLayers
        [⟨"sha256:a", [⟨"foo", TarType.reg, 0, 0, ""⟩]⟩,
         ⟨"sha256:b", [⟨".wh.foo", TarType.reg, 0, 0, ""⟩]⟩] []
      = ["/foo"]
    ∧ extractFileListFromLayers
        [⟨"sha256:c", [⟨"dir/.wh.foo", TarType.reg, 0, 0, ""⟩]⟩] []
      = ["/dir/.wh.foo"] :=
  ⟨by decide, by decide⟩

/-- C2 (counterexample): the default `ls` listing is not the merged
overlay fold of all layers.  For an image whose bottom layer writes
`/a` and whose top layer writes `/b`, the overlay fold described by the
spec holds both `/a` and `/b`, but `RunLs` with no layer selected lists
exactly the top layer's single entry `/b`. -/
theorem c2_counterexample :
    runLs [[⟨"a", TarType.reg, 0, 0, ""⟩], [⟨"b", TarType.reg, 0, 0, ""⟩]]
        (-1) ""
      = Except.ok [⟨"----------", 0, "/b"⟩]
    ∧ specOverlayPaths
        [[⟨"a", TarType.reg, 0, 0, ""⟩], [⟨"b", TarType.reg, 0, 0, ""⟩]]
      = ["/a", "/b"] :=
  ⟨rfl, by decide⟩

/-- C2 (amended): for every image, the default listing operation (no
layer selected, flag value `-1`) produces the single-layer extraction
of the topmost layer, whatever the lower layers contain. -/
theorem c2_default_lists_top_layer
    (pre : List (List TarEntry)) (layer : List TarEntry) :
    runLs (pre ++ [layer]) (-1) "" = Except.ok (extractFilesFromLayer layer) :=
  runLs_default_top (-1) (by omega) pre layer

/-- C3: the claim says that when the highest-indexed layer mentioning a
path deletes it with a whiteout, the default `cat` returns a typed
not-found.  The code evaluated at the failing input shows otherwise:
with `/foo` written in the bottom layer and a `.wh.foo` whiteout in the
top layer, `RunCat` returns the lower layer's content, because the
whiteout branch of `extractFileFromLayer` only fires when the queried
path equals the marker's own path, which never holds for the deleted
sibling path. -/
theorem c3_cat_ignores_whiteout :
    runCat [[⟨"foo", TarType.reg, 420, 1, "x"⟩],
            [⟨".wh.foo", TarType.reg, 0, 0, ""⟩]] (-1) "/foo"
      = Except.ok "x" :=
  rfl

/-- C4: diff classification — a path only in the second image's unique
set is added, only in the first's is removed, in both is modified; the
three outputs are pairwise disjoint and each is sorted in the byte-wise
string order `sort.Strings` uses; and the spec's concrete instance
behaves exactly as stated. -/
theorem c4_compare_classification (A B : List String) :
    (∀ p, p ∈ (compareFiles A B).1 ↔ (p ∈ B ∧ p ∉ A))
    ∧ (∀ p, p ∈ (compareFiles A B).2.1 ↔ (p ∈ A ∧ p ∉ B))
    ∧ (∀ p, p ∈ (compareFiles A B).2.2 ↔ (p ∈ B ∧ p ∈ A))
    ∧ List.Disjoint (compareFiles A B).1 (compareFiles A B).2.1
    ∧ List.Disjoint (compareFiles A B).1 (compareFiles A B).2.2
    ∧ List.Disjoint (compareFiles A B).2.1 (compareFiles A B).2.2
    ∧ List.Sorted GoLe (compareFiles A B).1
    ∧ List.Sorted GoLe (compareFiles A B).2.1
    ∧ List.Sorted GoLe (compareFiles A B).2.2
    ∧ compareFiles ["/a", "/b"] ["/b", "/c"] = (["/c"], ["/a"], ["/b"]) := by
  have hmem1 : ∀ p, p ∈ (compareFiles A B).1 ↔ (p ∈ B ∧ p ∉ A) := by
    intro p
    simp [compareFiles, mem_sortStrings, List.mem_filter]
  have hmem2 : ∀ p, p ∈ (compareFiles A B).2.1 ↔ (p ∈ A ∧ p ∉ B) := by
    intro p
    simp [compareFiles, mem_sortStrings, List.mem_filter]
  have hmem3 : ∀ p, p ∈ (compareFiles A B).2.2 ↔ (p ∈ B ∧ p ∈ A) := by
    intro p
    simp [compareFiles, mem_sortStrings, List.mem_filter]
  refine ⟨hmem1, hmem2, hmem3, ?_, ?_, ?_,
    sorted_sortStrings _, sorted_sortStrings _, sorted_sortStrings _, by decide⟩
  · intro p h1 h2
    exact ((hmem2 p).mp h2).2 ((hmem1 p).mp h1).1
  · intro p h1 h2
    exact ((hmem1 p).mp h1).2 ((hmem3 p).mp h2).2
  · intro p h1 h2
    exact ((hmem2 p).mp h1).2 ((hmem3 p).mp h2).1

/-- C4 (witness): the classification applied at the spec's concrete
instance, through the general theorem. -/
theorem c4_witness :
    "/c" ∈ (compareFiles ["/a", "/b"] ["/b", "/c"]).1
    ∧ "/a" ∈ (compareFiles ["/a", "/b"] ["/b", "/c"]).2.1
    ∧ "/b" ∈ (compareFiles ["/a", "/b"] ["/b", "/c"]).2.2 :=
  ⟨((c4_compare_classification ["/a", "/b"] ["/b", "/c"]).1 "/c").mpr
      (by constructor <;> decide),
   ((c4_compare_classification ["/a", "/b"] ["/b", "/c"]).2.1 "/a").mpr
      (by constructor <;> decide),
   ((c4_compare_classification ["/a", "/b"] ["/b", "/c"]).2.2.1 "/b").mpr
      (by constructor <;> decide)⟩

/-- C5: single-layer extraction returns exactly the layer's entries
with whiteout-marker entries elided (skipped, not applied as
deletions), and a `--layer` listing of layer `i` is a function of layer
`i` alone — the surrounding layers, whatever whiteouts they contain,
do not affect it. -/
theorem c5_single_layer_extraction (layer : List TarEntry)
    (pre post : List (List TarEntry)) :
    extractFilesFromLayer layer
      = (layer.filter (fun h => !(isWhBase h.name))).map toFileInfo
    ∧ runLs (pre ++ layer :: post) ((pre.length : Int) + 1) ""
        = Except.ok (extractFilesFromLayer layer) :=
  ⟨extractFilesFromLayer_eq layer, runLs_select pre post layer⟩

/-- C6 (counterexample): the claim says a slash-containing glob is
matched against the full path with an additional attempt against the
absolute (slash-prefixed) path.  For pattern `*/x` and entry `/x` that
additional attempt matches (`*` matches the empty first segment), yet
`filterFiles` drops the entry: the code only makes the absolute-path
attempt when the pattern itself starts with a slash. -/
theorem c6_counterexample :
    filterFiles [⟨"-rw-r--r--", 0, "/x"⟩] "*/x" = []
    ∧ doublestarMatch "*/x" (trimPfx "/x" "/") = false
    ∧ doublestarMatch "*/x" "/x" = true :=
  ⟨by decide, by decide, by decide⟩

/-- C6 (amended): a pattern without glob metacharacters keeps exactly
the entries whose full path contains it as a substring; a glob without
a slash is matched against basenames anywhere via an implicit `**/`
prefix; a glob with a slash is matched against the slash-stripped path,
with an additional attempt against the absolute path only when the
pattern itself begins with a slash.  The spec's concrete pattern
examples hold. -/
theorem c6_filter_amended (files : List FileInfo) (pattern : String) :
    filterFiles files pattern
      = files.filter (fun f =>
          if pattern.data.any (fun c => chEq c '*' || chEq c '?' || chEq c '[') then
            if pattern.data.any (fun c => chEq c '/') then
              doublestarMatch pattern (trimPfx f.path "/")
                || (strPre "/" pattern && doublestarMatch pattern f.path)
            else doublestarMatch ("**/" ++ pattern) (trimPfx f.path "/")
          else containsSub f.path pattern)
    ∧ patMatches "*.conf" "/etc/nginx/nginx.conf" = true
    ∧ patMatches "*.conf" "/etc/nginx/mime.types" = false
    ∧ patMatches "etc/nginx/*.conf" "/etc/nginx/nginx.conf" = true
    ∧ patMatches "etc/nginx/*.conf" "/etc/other/nginx.conf" = false := by
  refine ⟨?_, by decide, by decide, by decide, by decide⟩
  have hfold := foldl_keep_eq_filterMap
    (fun f : FileInfo => patMatches pattern f.path) id files []
  simp only [List.map_id, List.nil_append] at hfold
  have hpt : (fun f : FileInfo => patMatches pattern f.path)
      = (fun f : FileInfo =>
          if pattern.data.any (fun c => chEq c '*' || chEq c '?' || chEq c '[') then
            if pattern.data.any (fun c => chEq c '/') then
              doublestarMatch pattern (trimPfx f.path "/")
                || (strPre "/" pattern && doublestarMatch pattern f.path)
            else doublestarMatch ("**/" ++ pattern) (trimPfx f.path "/")
          else containsSub f.path pattern) := by
    funext f
    unfold patMatches
    rcases Bool.eq_false_or_eq_true (pattern.data.any (fun c => chEq c '/'))
      with h | h <;> simp [h]
  rw [← hpt]
  exact hfold

/-- C7 (counterexample): the claim says every normalized path has
exactly one leading slash, even for raw names with several leading
slashes; but normalizing `//foo` keeps both slashes, because
`strings.TrimPrefix` removes at most one. -/
theorem c7_counterexample :
    hasOneLeadingSlash (normalizePath "//foo") = false := by
  decide

/-- C7 (amended): the normalized path has exactly one leading slash
exactly when the raw archive name does not itself begin with two
slashes (normalization strips at most one leading slash before
re-prefixing one). -/
theorem hasOneLeadingSlash_cons (l : List Char) :
    hasOneLeadingSlash ⟨'/' :: l⟩
      = (match l with
         | [] => true
         | c2 :: _ => !(chEq c2 '/')) := by
  cases l <;> simp [hasOneLeadingSlash, chEq_refl]

theorem c7_normalize_one_slash (name : String) :
    hasOneLeadingSlash (normalizePath name) = !(strPre "//" name) := by
  unfold normalizePath trimPfx strPre
  cases hd : name.data with
  | nil =>
    have hpre : goPre ("/" : String).data [] = false := by
      simp [goPre]
    rw [hpre]
    have h2 : goPre ("//" : String).data ([] : List Char) = false := by
      simp [goPre]
    rw [h2]
    have hdata : ("/" ++ name).data = '/' :: [] := by
      rw [strData_append, hd]
      decide
    have hstr : ("/" ++ name) = (⟨['/']⟩ : String) := by
      rw [← hdata]
    simp only [Bool.false_eq_true, if_false, Bool.not_false]
    rw [hstr, hasOneLeadingSlash_cons]
  | cons c rest =>
    by_cases hc : chEq '/' c = true
    · have hpre : goPre ("/" : String).data (c :: rest) = true := by
        simp [goPre, hc]
      rw [hpre, if_pos rfl]
      have hdrop : (⟨List.drop ("/" : String).data.length (c :: rest)⟩ : String)
          = (⟨rest⟩ : String) := rfl
      rw [hdrop]
      have hdata : ("/" ++ (⟨rest⟩ : String)).data = '/' :: rest := by
        rw [strData_append, show ("/" : String).data = ['/'] from by decide]
        rfl
      have h2 : goPre ("//" : String).data (c :: rest) = goPre ['/'] rest := by
        simp [goPre, hc]
      have hstr : ("/" ++ (⟨rest⟩ : String)) = (⟨'/' :: rest⟩ : String) := by
        rw [← hdata]
      rw [h2, hstr, hasOneLeadingSlash_cons]
      cases rest with
      | nil => rfl
      | cons c2 r2 =>
        simp [goPre, chEq_comm c2 '/']
    · have hcf : chEq '/' c = false := by
        revert hc
        cases chEq '/' c <;> simp
      have hpre : goPre ("/" : String).data (c :: rest) = false := by
        simp [goPre, hcf]
      rw [hpre]
      have h2 : goPre ("//" : String).data (c :: rest) = false := by
        simp [goPre, hcf]
      rw [h2]
      have hdata : ("/" ++ name).data = '/' :: c :: rest := by
        rw [strData_append, hd, show ("/" : String).data = ['/'] from by decide]
        rfl
      simp only [Bool.false_eq_true, if_false, Bool.not_false]
      have hstr : ("/" ++ name) = (⟨'/' :: c :: rest⟩ : String) := by
        rw [← hdata]
      rw [hstr, hasOneLeadingSlash_cons]
      simp [chEq_comm c '/', hcf]

/-- C8: comparing two images with equal whole-image digests (from the
same repository) reports them as identical with zero added, removed
and modified paths, and performs no layer I/O at all: the layer lists
are never enumerated, no layer digest is read and no layer stream is
opened. -/
theorem c8_identical_short_circuit (img1 img2 : ImageData)
    (hrepo : img1.repo = img2.repo) (hdig : img1.digest = img2.digest) :
    runCompare img1 img2 = Except.ok (CompareOutcome.identical, [])
    ∧ CompareOutcome.identical.addedPaths = []
    ∧ CompareOutcome.identical.removedPaths = []
    ∧ CompareOutcome.identical.modifiedPaths = [] := by
  refine ⟨?_, rfl, rfl, rfl⟩
  unfold runCompare
  rw [if_neg (by simp [hrepo]), if_pos hdig]

/-- C8 (witness): the short-circuit at one concrete image compared
against itself. -/
theorem c8_witness :
    runCompare
        ⟨"index.docker.io/library/alpine", "sha256:d1",
         [⟨"sha256:l1", [⟨"etc/os-release", TarType.reg, 420, 3, "abc"⟩]⟩]⟩
        ⟨"index.docker.io/library/alpine", "sha256:d1",
         [⟨"sha256:l1", [⟨"etc/os-release", TarType.reg, 420, 3, "abc"⟩]⟩]⟩
      = Except.ok (CompareOutcome.identical, []) :=
  (c8_identical_short_circuit _ _ rfl rfl).1

/-- C9: in the listing operation, an error whose message states the
layer does not exist is returned exactly when the requested layer
number is positive and exceeds the layer count; every requested value
`≤ 0` (not only the default `-1`) selects the topmost layer's index
`n - 1` and, when the image has at least one layer, lists the topmost
layer, never producing an invalid-layer error. -/
theorem c9_layer_validation (L : Int) (n : Nat)
    (pre : List (List TarEntry)) (layer : List TarEntry) :
    ((∃ msg, lsLayerIndex L n = Except.error msg
        ∧ containsSub msg "does not exist" = true)
      ↔ (0 < L ∧ (n : Int) < L))
    ∧ (L ≤ 0 → lsLayerIndex L n = Except.ok ((n : Int) - 1))
    ∧ (L ≤ 0 →
        runLs (pre ++ [layer]) L "" = Except.ok (extractFilesFromLayer layer)) := by
  refine ⟨⟨?_, ?_⟩, ?_, ?_⟩
  · rintro ⟨msg, hmsg, -⟩
    unfold lsLayerIndex at hmsg
    by_cases h1 : L > 0
    · by_cases h2 : L > (n : Int)
      · exact ⟨h1, h2⟩
      · rw [if_pos h1, if_neg h2] at hmsg
        exact absurd hmsg (by simp)
    · rw [if_neg h1] at hmsg
      exact absurd hmsg (by simp)
  · rintro ⟨h1, h2⟩
    refine ⟨"layer " ++ toString L ++ " does not exist (image has "
        ++ toString n ++ " layers)", ?_, containsSub_layerErr L n⟩
    unfold lsLayerIndex
    rw [if_pos h1, if_pos h2]
  · intro hL
    unfold lsLayerIndex
    rw [if_neg (by omega)]
  · intro hL
    exact runLs_default_top L hL pre layer

/-- C9 (witness): the validation at concrete inputs — requesting layer
0 of a 3-layer image selects index 2, and the default `-1` on a
2-layer image lists the top layer. -/
theorem c9_witness :
    lsLayerIndex 0 3 = Except.ok 2
    ∧ runLs [[], [⟨"b", TarType.reg, 0, 0, ""⟩]] (-1) ""
        = Except.ok [⟨"----------", 0, "/b"⟩] := by
  constructor
  · exact (c9_layer_validation 0 3 [] []).2.1 (by omega)
  · have h := (c9_layer_validation (-1) 0 [[]]
      [⟨"b", TarType.reg, 0, 0, ""⟩]).2.2 (by omega)
    simpa using h

/-- C10 (counterexample): the claim says a non-regular entry sitting at
the queried normalized path always makes the read fail with an error
naming its type; but for a directory entry whose base name itself
carries the `.wh.` prefix, the whiteout branch fires first and the read
returns a typed not-found instead of the type error. -/
theorem c10_counterexample :
    extractFileFromLayer [⟨".wh.foo", TarType.dir, 0, 0, ""⟩] "/.wh.foo"
      = Except.ok none :=
  rfl

/-- C10 (amended): when the first entry of the searched layer at the
queried normalized path is not a regular file, the read fails with an
error naming the entry's tar type byte — unless the entry's base name
carries the whiteout prefix, in which case a typed not-found is
returned; in particular a symlink entry produces the type error and is
never followed to its target. -/
theorem c10_nonregular_type_error (layer : List TarEntry) (target : String)
    (e : TarEntry)
    (hfind : layer.find?
        (fun h => decide (normalizePath h.name = normalizePath target))
      = some e) :
    (isWhBase e.name = true →
      extractFileFromLayer layer target = Except.ok none)
    ∧ (isWhBase e.name = false → e.typeflag ≠ TarType.reg →
        extractFileFromLayer layer target
          = Except.error (catErrNotReg (normalizePath target) e.typeflag)
        ∧ containsSub (catErrNotReg (normalizePath target) e.typeflag)
            (tarTypeByte e.typeflag) = true) := by
  induction layer with
  | nil => simp [List.find?] at hfind
  | cons h rest ih =>
    by_cases hp : normalizePath h.name = normalizePath target
    · have he : h = e := by
        rw [List.find?_cons_of_pos _ (by simpa using hp)] at hfind
        exact Option.some_injective _ hfind
      subst he
      constructor
      · intro hwh
        unfold extractFileFromLayer scanEntries
        rw [if_pos hp, if_pos (by simpa using hwh)]
      · intro hwh hreg
        refine ⟨?_, containsSub_catErr _ _⟩
        unfold extractFileFromLayer scanEntries
        rw [if_pos hp, if_neg (by simp [hwh]), if_pos hreg]
    · have hfind' : rest.find?
          (fun h => decide (normalizePath h.name = normalizePath target))
          = some e := by
        rw [List.find?_cons_of_neg _ (by simpa using hp)] at hfind
        exact hfind
      have hrec := ih hfind'
      constructor
      · intro hwh
        unfold extractFileFromLayer scanEntries
        rw [if_neg hp]
        exact hrec.1 hwh
      · intro hwh hreg
        unfold extractFileFromLayer scanEntries
        rw [if_neg hp]
        exact hrec.2 hwh hreg

/-- C10 (witness): the amended behavior at concrete inputs — a
directory entry at the queried path produces the type error; a whiteout
entry at the queried path produces a typed not-found. -/
theorem c10_witness :
    extractFileFromLayer [⟨"d", TarType.dir, 493, 0, ""⟩] "/d"
      = Except.error (catErrNotReg (normalizePath "/d") TarType.dir)
    ∧ extractFileFromLayer [⟨".wh.z", TarType.reg, 0, 0, ""⟩] "/.wh.z"
      = Except.ok none := by
  constructor
  · exact ((c10_nonregular_type_error [⟨"d", TarType.dir, 493, 0, ""⟩] "/d"
      ⟨"d", TarType.dir, 493, 0, ""⟩ (by decide)).2 (by decide) (by decide)).1
  · exact (c10_nonregular_type_error [⟨".wh.z", TarType.reg, 0, 0, ""⟩] "/.wh.z"
      ⟨".wh.z", TarType.reg, 0, 0, ""⟩ (by decide)).1 (by decide)

end Lix
